import Mathlib

/-!
Shallow embedding of the Fortuna generator
(`Random/Fortuna/FortunaGenerator.py`): the generic generator state
machine (`BaseFortunaGenerator`), its AES-256 instantiation
(`AESGenerator`), and the counter encoder (`encode_counter`).

Bytes are modelled as `List Nat` (each entry one octet). The external
collaborators are abstract parameters: `aes : List Nat → List Nat → List Nat`
stands for `AES.new(key, AES.MODE_ECB).encrypt` (key, 16-byte block in,
16-byte block out) and `hash : List Nat → List Nat` stands for
`SHAd256.new(data).digest()`.

Python exceptions are modelled with `Except`; since a raised exception
leaves the partially mutated object behind, every stateful operation
returns `Except Err α × GenState`, the second component being the object
state when the call returns or raises.
-/

namespace Fortuna

/-- The distinct failure exits of the Python code: each `raise` /
failing `assert` in `FortunaGenerator.py` gets its own constructor. -/
inductive Err where
  /-- `_generate_blocks`: raise AssertionError, generator must be seeded before use. -/
  | NotSeeded
  /-- `_generate_blocks`: failing assert 0 le num_blocks le max_blocks_per_request. -/
  | TooManyBlocks
  /-- `_pseudo_random_data`: raise AssertionError, more than 1 MiB per request. -/
  | RequestTooLarge
  /-- `_pseudo_random_data`: failing assert len(retval) == bytes. -/
  | OutputLengthAssert
  /-- `_pseudo_random_data`: failing assert len(self.key) == self.key_size. -/
  | KeyLengthAssert
  /-- `reseed`: failing assert len(self.key) == self.key_size. -/
  | KeySizeMismatch
  /-- `AESGenerator._generate_single_block`: failing assert counter != 0. -/
  | CounterZeroCipher
  /-- `encode_counter`: raise AssertionError, invalid Fortuna counter value. -/
  | InvalidCounter
  /-- `encode_counter`: raise OverflowError, n does not fit in size bytes. -/
  | Overflow
  deriving DecidableEq

/-- The mutable state of a `BaseFortunaGenerator` object: `self.counter`
(a Python long, so an unbounded `Nat`) and `self.key` (a byte string). -/
structure GenState where
  counter : Nat
  key : List Nat
  deriving DecidableEq

/-- `AESGenerator.block_size = AES.block_size` (16 octets). -/
def block_size : Nat := 16

/-- `AESGenerator.key_size = 32` (AES-256). -/
def key_size : Nat := 32

/-- `AESGenerator.max_blocks_per_request = 2**16`. -/
def max_blocks_per_request : Nat := 2 ^ 16

/-- `self.blocks_per_key = exact_div(self.key_size, self.block_size)`. -/
def blocks_per_key : Nat := key_size / block_size

/-- `self.max_bytes_per_request = self.max_blocks_per_request * self.block_size`. -/
def max_bytes_per_request : Nat := max_blocks_per_request * block_size

/-- `__init__`: `self.counter = 0`, `self.key = "\0" * self.key_size`. -/
def initState : GenState := { counter := 0, key := List.replicate key_size 0 }

/-- Modelled from the spec: `ceil_shift` is imported from the external
`Crypto.Util.number` module, which is not part of this snippet; both the
spec and the call-site comment in the source state that
`ceil_shift(bytes, block_size_shift)` computes `ceil(bytes / block_size)`
with `block_size = 2 ** block_size_shift`. -/
def ceil_shift (n b : Nat) : Nat := (n + 2 ^ b - 1) / 2 ^ b

/-- The first loop of `encode_counter`: `q` iterations of
`retval.append(pack("<I", n & 0xFFFFffff)); n >>= 32`, returning the
accumulated bytes and the final value of `n`. -/
def leWords : Nat → Nat → List Nat × Nat
  | 0, m => ([], m)
  | q + 1, m =>
    let w := [m % 256, m / 2 ^ 8 % 256, m / 2 ^ 16 % 256, m / 2 ^ 24 % 256]
    let p := leWords q (m / 2 ^ 32)
    (w ++ p.1, p.2)

/-- The second loop of `encode_counter`: `r` iterations of
`retval.append(chr(n & 0xff)); n >>= 8`, returning the accumulated bytes
and the final value of `n`. -/
def leBytes : Nat → Nat → List Nat × Nat
  | 0, m => ([], m)
  | r + 1, m =>
    let p := leBytes r (m / 2 ^ 8)
    (m % 256 :: p.1, p.2)

/-- `encode_counter(n, size)`: little-endian fixed-width encoding of the
counter.  `n` is a Python integer (may be non-positive, hence `Int`);
`(q, r) = divmod(size, 4)`; fails on `n <= 0` and when bits of `n`
remain after the two loops. -/
def encode_counter (n : Int) (size : Nat) : Except Err (List Nat) :=
  if n ≤ 0 then .error .InvalidCounter
  else
    let q := size / 4
    let r := size % 4
    let p1 := leWords q n.toNat
    let p2 := leBytes r p1.2
    if p2.2 ≠ 0 then .error .Overflow
    else .ok (p1.1 ++ p2.1)

/-- `AESGenerator._generate_single_block(counter)`: asserts
`counter != 0`, then encrypts `encode_counter(counter, AES.block_size)`
under the current key.  Pure: reads `self.key`, mutates nothing. -/
def generate_single_block (aes : List Nat → List Nat → List Nat)
    (key : List Nat) (counter : Nat) : Except Err (List Nat) :=
  if counter = 0 then .error .CounterZeroCipher
  else
    match encode_counter (counter : Int) block_size with
    | .error e => .error e
    | .ok ctr => .ok (aes key ctr)

/-- The loop of `_generate_blocks`: `num_blocks` iterations of
`retval.append(self._generate_single_block(self.counter)); self.counter += 1`.
Arguments: block count, then current counter; returns the joined output
(or the first exception) together with the final counter. -/
def genBlocksLoop (aes : List Nat → List Nat → List Nat) (key : List Nat) :
    Nat → Nat → Except Err (List Nat) × Nat
  | 0, c => (.ok [], c)
  | k + 1, c =>
    match generate_single_block aes key c with
    | .error e => (.error e, c)
    | .ok b =>
      match genBlocksLoop aes key k (c + 1) with
      | (.error e, c') => (.error e, c')
      | (.ok rest, c') => (.ok (b ++ rest), c')

/-- `BaseFortunaGenerator._generate_blocks(num_blocks)`: raises
`NotSeeded` when `self.counter == 0`, asserts the block count bound, then
runs the generation loop.  `self.key` is read but never written here. -/
def generate_blocks (aes : List Nat → List Nat → List Nat)
    (num_blocks : Nat) (s : GenState) : Except Err (List Nat) × GenState :=
  if s.counter = 0 then (.error .NotSeeded, s)
  else if max_blocks_per_request < num_blocks then (.error .TooManyBlocks, s)
  else
    match genBlocksLoop aes s.key num_blocks s.counter with
    | (.error e, c') => (.error e, { counter := c', key := s.key })
    | (.ok out, c') => (.ok out, { counter := c', key := s.key })

/-- `BaseFortunaGenerator._pseudo_random_data(bytes)`: checks the 1 MiB
bound, generates `ceil(bytes / block_size)` blocks, truncates to `bytes`,
then unconditionally generates `blocks_per_key` further blocks and
installs them as the new key, and finally runs the two length asserts. -/
def pseudo_random_data_chunk (aes : List Nat → List Nat → List Nat)
    (bytes : Nat) (s : GenState) : Except Err (List Nat) × GenState :=
  if max_bytes_per_request < bytes then (.error .RequestTooLarge, s)
  else
    let num_blocks := ceil_shift bytes 4
    match generate_blocks aes num_blocks s with
    | (.error e, s1) => (.error e, s1)
    | (.ok out, s1) =>
      let retval := out.take bytes
      match generate_blocks aes blocks_per_key s1 with
      | (.error e, s2) => (.error e, s2)
      | (.ok newkey, s2) =>
        let s3 : GenState := { counter := s2.counter, key := newkey }
        if retval.length ≠ bytes then (.error .OutputLengthAssert, s3)
        else if newkey.length ≠ key_size then (.error .KeyLengthAssert, s3)
        else (.ok retval, s3)

/-- The `for i in xrange(num_full_blocks)` loop of `pseudo_random_data`:
`k` requests of `1 << 20` bytes each, outputs concatenated in order. -/
def prdLoop (aes : List Nat → List Nat → List Nat) :
    Nat → GenState → Except Err (List Nat) × GenState
  | 0, s => (.ok [], s)
  | k + 1, s =>
    match pseudo_random_data_chunk aes (2 ^ 20) s with
    | (.error e, s1) => (.error e, s1)
    | (.ok chunk, s1) =>
      match prdLoop aes k s1 with
      | (.error e, s2) => (.error e, s2)
      | (.ok rest, s2) => (.ok (chunk ++ rest), s2)

/-- `BaseFortunaGenerator.pseudo_random_data(bytes)`: splits the request
into `bytes >> 20` full 1 MiB chunks plus a final chunk of
`bytes & ((1 << 20) - 1)` bytes (always issued, even when zero). -/
def pseudo_random_data (aes : List Nat → List Nat → List Nat)
    (bytes : Nat) (s : GenState) : Except Err (List Nat) × GenState :=
  match prdLoop aes (bytes / 2 ^ 20) s with
  | (.error e, s1) => (.error e, s1)
  | (.ok full, s1) =>
    match pseudo_random_data_chunk aes (bytes % 2 ^ 20) s1 with
    | (.error e, s2) => (.error e, s2)
    | (.ok last, s2) => (.ok (full ++ last), s2)

/-- `BaseFortunaGenerator.reseed(seed)`: `self.key = SHAd256.new(self.key
+ seed).digest(); self.counter += 1; assert len(self.key) == self.key_size`.
Note both mutations happen before the assert. -/
def reseed (hash : List Nat → List Nat) (seed : List Nat) (s : GenState) :
    Except Err Unit × GenState :=
  let key' := hash (s.key ++ seed)
  let s' : GenState := { counter := s.counter + 1, key := key' }
  if key'.length = key_size then (.ok (), s') else (.error .KeySizeMismatch, s')

/-! ### Little-endian characterisation of `encode_counter` -/

/-- Specification-side little-endian expansion: the `s` low-order
base-256 digits of `m`, least significant first. -/
def leN : Nat → Nat → List Nat
  | 0, _ => []
  | s + 1, m => m % 256 :: leN s (m / 256)

theorem leN_length (s m : Nat) : (leN s m).length = s := by
  induction s generalizing m with
  | zero => rfl
  | succ s ih => simp [leN, ih]

theorem leN_add (a b m : Nat) : leN (a + b) m = leN a m ++ leN b (m / 256 ^ a) := by
  induction a generalizing m with
  | zero => simp [leN]
  | succ a ih =>
    have : a + 1 + b = (a + b) + 1 := by omega
    rw [this]
    simp only [leN, ih (m / 256)]
    rw [Nat.div_div_eq_div_mul, pow_succ']
    simp

theorem leN_getD (s : Nat) (m i : Nat) (h : i < s) :
    (leN s m).getD i 0 = m / 256 ^ i % 256 := by
  induction s generalizing m i with
  | zero => omega
  | succ s ih =>
    cases i with
    | zero => simp [leN]
    | succ i =>
      have := ih (m / 256) i (by omega)
      simp only [leN, List.getD_cons_succ, this, Nat.div_div_eq_div_mul, pow_succ']

theorem leBytes_eq (r m : Nat) : leBytes r m = (leN r m, m / 256 ^ r) := by
  induction r generalizing m with
  | zero => simp [leBytes, leN]
  | succ r ih =>
    simp only [leBytes, leN, ih, Nat.div_div_eq_div_mul, pow_succ']
    norm_num

theorem leWords_eq (q m : Nat) : leWords q m = (leN (4 * q) m, m / 256 ^ (4 * q)) := by
  induction q generalizing m with
  | zero => simp [leWords, leN]
  | succ q ih =>
    have h4 : 4 * (q + 1) = 4 + 4 * q := by omega
    rw [h4, leN_add]
    simp only [leWords, ih, Prod.mk.injEq]
    constructor
    · show _ ++ _ = leN 4 m ++ _
      have e1 : leN 4 m = [m % 256, m / 256 % 256, m / 256 ^ 2 % 256, m / 256 ^ 3 % 256] := by
        simp [leN, Nat.div_div_eq_div_mul]
      rw [e1]
      norm_num
    · show m / 2 ^ 32 / 256 ^ (4 * q) = m / 256 ^ (4 + 4 * q)
      rw [Nat.div_div_eq_div_mul, pow_add]
      norm_num

/-- For a positive counter, `encode_counter` succeeds exactly when the
value fits in `size` bytes, and then returns the `size` low-order
base-256 digits, least significant first. -/
theorem encode_counter_pos (n : Int) (size : Nat) (h : 0 < n) :
    encode_counter n size =
      if n.toNat < 256 ^ size then .ok (leN size n.toNat) else .error .Overflow := by
  have hn : ¬ n ≤ 0 := by omega
  unfold encode_counter
  rw [if_neg hn]
  simp only [leWords_eq, leBytes_eq, Nat.div_div_eq_div_mul, ← pow_add]
  have hsize : 4 * (size / 4) + size % 4 = size := by omega
  rw [hsize, ← leN_add, hsize]
  have hpow : 0 < 256 ^ size := Nat.pos_pow_of_pos size (by norm_num)
  by_cases hfit : n.toNat < 256 ^ size
  · rw [if_pos hfit]
    have hz : n.toNat / 256 ^ size = 0 := Nat.div_eq_of_lt hfit
    simp [hz]
  · rw [if_neg hfit]
    have hz : n.toNat / 256 ^ size ≠ 0 := by
      intro hc
      exact hfit ((Nat.div_eq_zero_iff hpow).mp hc)
    simp [hz]

theorem pow256_cast (size : Nat) : (((256 : Nat) ^ size : Nat) : Int) = (2 : Int) ^ (8 * size) := by
  push_cast
  rw [pow_mul]
  norm_num

theorem toNat_lt_pow_iff (n : Int) (size : Nat) (h : 0 < n) :
    n.toNat < 256 ^ size ↔ n < 2 ^ (8 * size) := by
  have hcast : ((n.toNat : Int)) = n := Int.toNat_of_nonneg h.le
  rw [← hcast, ← pow256_cast size]
  exact Nat.cast_lt.symm

/-- C7: for every integer `n` with `0 < n < 2^(8*size)` and every
positive `size`, `encode_counter n size` returns exactly `size` bytes,
laid out little-endian with `n`'s low-order bits first (byte `i` is
`n / 256^i % 256`); in particular `encode_counter 1 16` is the byte 1
followed by 15 zero bytes. -/
theorem claim_C7 :
    (∀ (n : Int) (size : Nat), 0 < n → 0 < size → n < 2 ^ (8 * size) →
      encode_counter n size = .ok (leN size n.toNat) ∧
      (leN size n.toNat).length = size ∧
      (∀ i, i < size → (leN size n.toNat).getD i 0 = n.toNat / 256 ^ i % 256)) ∧
    encode_counter 1 16 = .ok (1 :: List.replicate 15 0) := by
  constructor
  · intro n size hpos hsz hfit
    have hfitn : n.toNat < 256 ^ size := (toNat_lt_pow_iff n size hpos).mpr hfit
    refine ⟨?_, leN_length _ _, fun i hi => leN_getD _ _ _ hi⟩
    rw [encode_counter_pos n size hpos, if_pos hfitn]
  · rfl

set_option maxRecDepth 8000 in
theorem claim_C7_witness :
    (0 : Int) < 1 ∧ (0 : Nat) < 16 ∧ (1 : Int) < 2 ^ (8 * 16) ∧
    (encode_counter 1 16 = .ok (leN 16 (1 : Int).toNat) ∧
      (leN 16 (1 : Int).toNat).length = 16 ∧
      (∀ i, i < 16 → (leN 16 (1 : Int).toNat).getD i 0 = (1 : Int).toNat / 256 ^ i % 256)) :=
  ⟨by decide, by decide, by decide, claim_C7.1 1 16 (by decide) (by decide) (by decide)⟩

/-- C8: `encode_counter` fails with `InvalidCounter` for every `n ≤ 0`,
and for `n > 0` fails with `Overflow` exactly when `n ≥ 2^(8*size)`;
in particular `encode_counter (2^32) 4` fails with `Overflow` and
`encode_counter 0 4` fails with `InvalidCounter`. -/
theorem claim_C8 :
    (∀ (n : Int) (size : Nat), n ≤ 0 → encode_counter n size = .error .InvalidCounter) ∧
    (∀ (n : Int) (size : Nat), 0 < n →
      (encode_counter n size = .error .Overflow ↔ 2 ^ (8 * size) ≤ n)) ∧
    encode_counter (2 ^ 32) 4 = .error .Overflow ∧
    encode_counter 0 4 = .error .InvalidCounter := by
  refine ⟨?_, ?_, by rfl, by rfl⟩
  · intro n size hn
    simp [encode_counter, hn]
  · intro n size hpos
    rw [encode_counter_pos n size hpos]
    rcases lt_or_ge n.toNat (256 ^ size) with hfit | hfit
    · rw [if_pos hfit]
      simp only [reduceCtorEq, false_iff, not_le]
      exact (toNat_lt_pow_iff n size hpos).mp hfit
    · rw [if_neg (not_lt.mpr hfit)]
      simp only [Except.error.injEq, true_iff]
      have hcast : ((n.toNat : Int)) = n := Int.toNat_of_nonneg hpos.le
      rw [← hcast, ← pow256_cast size]
      exact_mod_cast hfit

theorem claim_C8_witness :
    ((-3 : Int) ≤ 0 ∧ encode_counter (-3) 5 = .error .InvalidCounter) ∧
    ((0 : Int) < 7 ∧ (encode_counter 7 2 = .error .Overflow ↔ (2 : Int) ^ (8 * 2) ≤ 7)) :=
  ⟨⟨by decide, claim_C8.1 (-3) 5 (by decide)⟩,
   ⟨by decide, claim_C8.2.1 7 2 (by decide)⟩⟩

/-! ### Successful block generation -/

/-- The block stream the generator emits from `(key, c)`: `k` cipher
blocks, the `i`-th being the encryption of the encoded counter `c + i`. -/
def blockSeq (aes : List Nat → List Nat → List Nat) (key : List Nat)
    (c k : Nat) : List Nat :=
  ((List.range k).map fun i => aes key (leN 16 (c + i))).flatten

theorem blockSeq_zero (aes : List Nat → List Nat → List Nat) (key : List Nat) (c : Nat) :
    blockSeq aes key c 0 = [] := rfl

theorem blockSeq_succ (aes : List Nat → List Nat → List Nat) (key : List Nat) (c k : Nat) :
    blockSeq aes key c (k + 1) = aes key (leN 16 c) ++ blockSeq aes key (c + 1) k := by
  unfold blockSeq
  rw [List.range_succ_eq_map]
  simp only [List.map_cons, List.map_map, List.flatten_cons, Nat.add_zero]
  congr 1
  congr 1
  refine List.map_congr_left fun i _ => ?_
  simp only [Function.comp_apply]
  congr 2
  omega

theorem blockSeq_length (aes : List Nat → List Nat → List Nat) (key : List Nat)
    (h16 : ∀ k b, (aes k b).length = 16) (c k : Nat) :
    (blockSeq aes key c k).length = 16 * k := by
  induction k generalizing c with
  | zero => rfl
  | succ k ih =>
    rw [blockSeq_succ, List.length_append, h16, ih]
    omega

theorem generate_single_block_ok (aes : List Nat → List Nat → List Nat)
    (key : List Nat) (c : Nat) (h0 : c ≠ 0) (hlt : c < 2 ^ 128) :
    generate_single_block aes key c = .ok (aes key (leN 16 c)) := by
  have hpos : (0 : Int) < (c : Int) := by exact_mod_cast Nat.pos_of_ne_zero h0
  unfold generate_single_block
  rw [if_neg h0, encode_counter_pos _ _ hpos]
  have hfit : ((c : Int)).toNat < 256 ^ block_size := by
    have : ((c : Int)).toNat = c := Int.toNat_natCast c
    rw [this]
    calc c < 2 ^ 128 := hlt
    _ = 256 ^ block_size := by norm_num [block_size]
  rw [if_pos hfit, Int.toNat_natCast]
  rfl

theorem genBlocksLoop_ok (aes : List Nat → List Nat → List Nat) (key : List Nat)
    (k c : Nat) (h0 : c ≠ 0) (hb : c + k ≤ 2 ^ 128) :
    genBlocksLoop aes key k c = (.ok (blockSeq aes key c k), c + k) := by
  induction k generalizing c with
  | zero => simp [genBlocksLoop, blockSeq_zero]
  | succ k ih =>
    rw [genBlocksLoop, generate_single_block_ok aes key c h0 (by omega),
      ih (c + 1) (by omega) (by omega), blockSeq_succ,
      show c + (k + 1) = c + 1 + k by omega]

theorem generate_blocks_ok (aes : List Nat → List Nat → List Nat)
    (k : Nat) (s : GenState) (h0 : s.counter ≠ 0) (hk : k ≤ max_blocks_per_request)
    (hb : s.counter + k ≤ 2 ^ 128) :
    generate_blocks aes k s =
      (.ok (blockSeq aes s.key s.counter k),
       { counter := s.counter + k, key := s.key }) := by
  unfold generate_blocks
  rw [if_neg h0, if_neg (not_lt.mpr hk), genBlocksLoop_ok aes s.key k s.counter h0 hb]

/-- Blocks consumed by one `_pseudo_random_data` request of `b` bytes:
`ceil(b / 16)` output blocks plus `blocks_per_key` re-keying blocks. -/
def chunkBlocks (b : Nat) : Nat := ceil_shift b 4 + blocks_per_key

theorem pseudo_random_data_chunk_ok (aes : List Nat → List Nat → List Nat)
    (h16 : ∀ k b, (aes k b).length = 16)
    (b c : Nat) (key : List Nat) (hb : b ≤ max_bytes_per_request)
    (h0 : c ≠ 0) (hctr : c + chunkBlocks b ≤ 2 ^ 128) :
    pseudo_random_data_chunk aes b { counter := c, key := key } =
      (.ok ((blockSeq aes key c (ceil_shift b 4)).take b),
       { counter := c + chunkBlocks b,
         key := blockSeq aes key (c + ceil_shift b 4) blocks_per_key }) := by
  have hmax : max_bytes_per_request = 2 ^ 20 := by norm_num [max_bytes_per_request, max_blocks_per_request, block_size]
  have hbb : b ≤ 2 ^ 20 := hmax ▸ hb
  have hcs : ceil_shift b 4 = (b + 15) / 16 := by norm_num [ceil_shift]
  have hnb : ceil_shift b 4 ≤ max_blocks_per_request := by
    rw [hcs]
    norm_num [max_blocks_per_request]
    omega
  have hbpk : blocks_per_key = 2 := by norm_num [blocks_per_key, key_size, block_size]
  have hcb : chunkBlocks b = ceil_shift b 4 + 2 := by rw [chunkBlocks, hbpk]
  unfold pseudo_random_data_chunk
  dsimp only
  rw [if_neg (not_lt.mpr hb)]
  rw [generate_blocks_ok aes _ _ h0 hnb (by show c + ceil_shift b 4 ≤ 2 ^ 128; omega)]
  dsimp only
  have h0' : c + ceil_shift b 4 ≠ 0 := by omega
  have hk2 : blocks_per_key ≤ max_blocks_per_request := by
    rw [hbpk]; norm_num [max_blocks_per_request]
  rw [generate_blocks_ok aes _ _ h0' hk2
    (by show c + ceil_shift b 4 + blocks_per_key ≤ 2 ^ 128; rw [hbpk]; omega)]
  dsimp only
  have hlen : ((blockSeq aes key c (ceil_shift b 4)).take b).length = b := by
    rw [List.length_take, blockSeq_length aes key h16]
    rw [hcs]
    omega
  have hklen : (blockSeq aes key (c + ceil_shift b 4) blocks_per_key).length = key_size := by
    rw [blockSeq_length aes key h16, hbpk]
    norm_num [key_size]
  rw [if_neg (by rw [hlen]; exact fun h => h rfl), if_neg (by rw [hklen]; exact fun h => h rfl)]
  rw [hcb, hbpk, show c + ceil_shift b 4 + 2 = c + (ceil_shift b 4 + 2) by omega]

/-- Total number of cipher blocks consumed by `pseudo_random_data n`:
each of the `n / 2^20` full chunks takes `2^16` output blocks plus 2
re-keying blocks, and the final chunk of `n % 2^20` bytes takes
`ceil((n % 2^20) / 16)` output blocks plus 2 re-keying blocks. -/
def totalBlocks (n : Nat) : Nat :=
  (n / 2 ^ 20) * (2 ^ 16 + 2) + chunkBlocks (n % 2 ^ 20)

theorem chunkBlocks_full : chunkBlocks (2 ^ 20) = 2 ^ 16 + 2 := by
  norm_num [chunkBlocks, ceil_shift, blocks_per_key, key_size, block_size]

theorem max_bytes_eq : max_bytes_per_request = 2 ^ 20 := by
  norm_num [max_bytes_per_request, max_blocks_per_request, block_size]

theorem prdLoop_ok (aes : List Nat → List Nat → List Nat)
    (h16 : ∀ k b, (aes k b).length = 16) :
    ∀ (k c : Nat) (key : List Nat), c ≠ 0 → c + k * (2 ^ 16 + 2) ≤ 2 ^ 128 →
    ∃ out key2,
      prdLoop aes k { counter := c, key := key } =
        (.ok out, { counter := c + k * (2 ^ 16 + 2), key := key2 }) ∧
      out.length = 2 ^ 20 * k := by
  intro k
  induction k with
  | zero =>
    intro c key hc _
    exact ⟨[], key, by simp [prdLoop], rfl⟩
  | succ k ih =>
    intro c key hc hb
    have hfull : (2 ^ 20 : Nat) ≤ max_bytes_per_request := by rw [max_bytes_eq]
    have hcb : c + chunkBlocks (2 ^ 20) ≤ 2 ^ 128 := by
      rw [chunkBlocks_full]
      have : (k + 1) * (2 ^ 16 + 2) = k * (2 ^ 16 + 2) + (2 ^ 16 + 2) := by ring
      omega
    obtain ⟨out2, key2, heq2, hlen2⟩ :=
      ih (c + chunkBlocks (2 ^ 20)) (blockSeq aes key (c + ceil_shift (2 ^ 20) 4) blocks_per_key)
        (by omega)
        (by rw [chunkBlocks_full] at *
            have : (k + 1) * (2 ^ 16 + 2) = k * (2 ^ 16 + 2) + (2 ^ 16 + 2) := by ring
            omega)
    refine ⟨(blockSeq aes key c (ceil_shift (2 ^ 20) 4)).take (2 ^ 20) ++ out2, key2, ?_, ?_⟩
    · rw [prdLoop, pseudo_random_data_chunk_ok aes h16 (2 ^ 20) c key hfull hc hcb]
      dsimp only
      rw [heq2]
      dsimp only
      rw [show c + chunkBlocks (2 ^ 20) + k * (2 ^ 16 + 2) = c + (k + 1) * (2 ^ 16 + 2) by
        rw [chunkBlocks_full]; ring]
    · rw [List.length_append, List.length_take, blockSeq_length aes key h16, hlen2]
      have : ceil_shift (2 ^ 20) 4 = 2 ^ 16 := by norm_num [ceil_shift]
      rw [this]
      norm_num
      ring

/-- Main success lemma: with a seeded counter that stays below `2^128`
for the whole request, `pseudo_random_data` returns exactly `n` bytes
and advances the counter by `totalBlocks n`. -/
theorem pseudo_random_data_ok (aes : List Nat → List Nat → List Nat)
    (h16 : ∀ k b, (aes k b).length = 16) (n c : Nat) (key : List Nat)
    (hc : c ≠ 0) (hb : c + totalBlocks n ≤ 2 ^ 128) :
    ∃ out key2,
      pseudo_random_data aes n { counter := c, key := key } =
        (.ok out, { counter := c + totalBlocks n, key := key2 }) ∧
      out.length = n := by
  have htb : totalBlocks n = (n / 2 ^ 20) * (2 ^ 16 + 2) + chunkBlocks (n % 2 ^ 20) := rfl
  obtain ⟨out1, key1, heq1, hlen1⟩ :=
    prdLoop_ok aes h16 (n / 2 ^ 20) c key hc (by omega)
  have hrem : n % 2 ^ 20 ≤ max_bytes_per_request := by
    rw [max_bytes_eq]
    omega
  have hc1 : c + (n / 2 ^ 20) * (2 ^ 16 + 2) ≠ 0 := by omega
  have hcb1 : c + (n / 2 ^ 20) * (2 ^ 16 + 2) + chunkBlocks (n % 2 ^ 20) ≤ 2 ^ 128 := by omega
  refine ⟨out1 ++ (blockSeq aes key1 (c + (n / 2 ^ 20) * (2 ^ 16 + 2))
      (ceil_shift (n % 2 ^ 20) 4)).take (n % 2 ^ 20),
    blockSeq aes key1 (c + (n / 2 ^ 20) * (2 ^ 16 + 2) + ceil_shift (n % 2 ^ 20) 4)
      blocks_per_key, ?_, ?_⟩
  · unfold pseudo_random_data
    rw [heq1]
    dsimp only
    rw [pseudo_random_data_chunk_ok aes h16 (n % 2 ^ 20) _ key1 hrem hc1 hcb1]
    dsimp only
    rw [show c + (n / 2 ^ 20) * (2 ^ 16 + 2) + chunkBlocks (n % 2 ^ 20) = c + totalBlocks n by
      rw [htb]; omega]
  · rw [List.length_append, hlen1, List.length_take, blockSeq_length aes key1 h16]
    have hcs : ceil_shift (n % 2 ^ 20) 4 = (n % 2 ^ 20 + 15) / 16 := by norm_num [ceil_shift]
    rw [hcs]
    omega

/-! ### Failure on an unseeded generator -/

theorem pseudo_random_data_chunk_notSeeded (aes : List Nat → List Nat → List Nat)
    (b : Nat) (s : GenState) (hs : s.counter = 0) (hb : b ≤ max_bytes_per_request) :
    pseudo_random_data_chunk aes b s = (.error .NotSeeded, s) := by
  unfold pseudo_random_data_chunk generate_blocks
  dsimp only
  rw [if_neg (not_lt.mpr hb), if_pos hs]

theorem pseudo_random_data_notSeeded (aes : List Nat → List Nat → List Nat)
    (n : Nat) (s : GenState) (hs : s.counter = 0) :
    pseudo_random_data aes n s = (.error .NotSeeded, s) := by
  unfold pseudo_random_data
  cases h : n / 2 ^ 20 with
  | zero =>
    rw [prdLoop]
    dsimp only
    rw [pseudo_random_data_chunk_notSeeded aes _ s hs (by rw [max_bytes_eq]; omega)]
  | succ k =>
    rw [prdLoop, pseudo_random_data_chunk_notSeeded aes _ s hs (le_of_eq max_bytes_eq.symm)]

/-- Every error produced by `encode_counter` is `InvalidCounter` or
`Overflow`. -/
theorem encode_counter_error (n : Int) (size : Nat) (e : Err)
    (h : encode_counter n size = .error e) : e = .InvalidCounter ∨ e = .Overflow := by
  unfold encode_counter at h
  by_cases hn : n ≤ 0
  · rw [if_pos hn] at h
    exact Or.inl (Except.error.inj h).symm
  · rw [if_neg hn] at h
    dsimp only at h
    by_cases hz : (leBytes (size % 4) (leWords (size / 4) n.toNat).2).2 ≠ 0
    · rw [if_pos hz] at h
      exact Or.inr (Except.error.inj h).symm
    · rw [if_neg hz] at h
      cases h

/-- Every error produced by `_generate_single_block` is
`CounterZeroCipher`, `InvalidCounter` or `Overflow`. -/
theorem generate_single_block_error (aes : List Nat → List Nat → List Nat)
    (key : List Nat) (c : Nat) (e : Err)
    (h : generate_single_block aes key c = .error e) :
    e = .CounterZeroCipher ∨ e = .InvalidCounter ∨ e = .Overflow := by
  unfold generate_single_block at h
  by_cases hc : c = 0
  · rw [if_pos hc] at h
    exact Or.inl (Except.error.inj h).symm
  · rw [if_neg hc] at h
    cases henc : encode_counter (c : Int) block_size with
    | error e2 =>
      rw [henc] at h
      exact Or.inr (encode_counter_error _ _ _ (henc.trans (congrArg Except.error (Except.error.inj h))))
    | ok ctr =>
      rw [henc] at h
      cases h

/-- Every error produced by the generation loop comes from a single
block, hence is `CounterZeroCipher`, `InvalidCounter` or `Overflow`. -/
theorem genBlocksLoop_error (aes : List Nat → List Nat → List Nat) (key : List Nat) :
    ∀ (k c : Nat) (e : Err), (genBlocksLoop aes key k c).1 = .error e →
    e = .CounterZeroCipher ∨ e = .InvalidCounter ∨ e = .Overflow := by
  intro k
  induction k with
  | zero =>
    intro c e h
    cases h
  | succ k ih =>
    intro c e h
    rw [genBlocksLoop] at h
    cases hsb : generate_single_block aes key c with
    | error e2 =>
      rw [hsb] at h
      cases h
      exact generate_single_block_error aes key c _ hsb
    | ok b =>
      rw [hsb] at h
      dsimp only at h
      cases hrec : genBlocksLoop aes key k (c + 1) with
      | mk res c' =>
        rw [hrec] at h
        cases res with
        | error e2 =>
          dsimp only at h
          cases h
          exact ih (c + 1) e (by rw [hrec])
        | ok rest =>
          cases h

/-! ### Operation traces -/

/-- One call through the public interface of the generator. -/
inductive Op where
  | reseedOp (seed : List Nat)
  | requestOp (n : Nat)
  deriving DecidableEq

/-- `Op.reseedOp seed` calls are the reseeds of a trace. -/
def Op.isReseed : Op → Bool
  | .reseedOp _ => true
  | .requestOp _ => false

/-- `ReachableVia aes hash t s`: starting from a freshly constructed
generator, the successful calls listed in `t` (in order) lead to state
`s`. -/
inductive ReachableVia (aes : List Nat → List Nat → List Nat)
    (hash : List Nat → List Nat) : List Op → GenState → Prop where
  | init : ReachableVia aes hash [] initState
  | reseedStep {t : List Op} {s : GenState} {seed : List Nat} {s' : GenState} :
      ReachableVia aes hash t s → reseed hash seed s = (.ok (), s') →
      ReachableVia aes hash (t ++ [.reseedOp seed]) s'
  | requestStep {t : List Op} {s : GenState} {n : Nat} {out : List Nat} {s' : GenState} :
      ReachableVia aes hash t s → pseudo_random_data aes n s = (.ok out, s') →
      ReachableVia aes hash (t ++ [.requestOp n]) s'

/-- A concrete degenerate cipher: every block encrypts to 16 zero bytes. -/
def zAes : List Nat → List Nat → List Nat := fun _ _ => List.replicate 16 0

/-- A concrete degenerate hash: every digest is 32 zero bytes. -/
def zHash : List Nat → List Nat := fun _ => List.replicate 32 0

theorem zAes_len : ∀ k b, (zAes k b).length = 16 := by
  intro k b
  simp [zAes]

/-- Under `zHash`, `k` reseeds drive the counter to `k` while the key
stays all zero, so arbitrarily large counters are reachable. -/
theorem reach_counter (k : Nat) :
    ReachableVia zAes zHash (List.replicate k (Op.reseedOp []))
      { counter := k, key := List.replicate 32 0 } := by
  induction k with
  | zero => exact ReachableVia.init
  | succ k ih =>
    rw [List.replicate_succ']
    exact ReachableVia.reseedStep ih rfl

/-- C1 counterexample: after `2^128` reseeds the counter is `2^128 > 0`,
yet `pseudo_random_data 1` raises `Overflow` (the counter no longer fits
in one 16-byte cipher block) instead of returning 1 byte. -/
theorem claim_C1_counterexample :
    ReachableVia zAes zHash (List.replicate (2 ^ 128) (Op.reseedOp []))
      { counter := 2 ^ 128, key := List.replicate 32 0 } ∧
    ({ counter := 2 ^ 128, key := List.replicate 32 0 } : GenState).counter ≠ 0 ∧
    pseudo_random_data zAes 1 { counter := 2 ^ 128, key := List.replicate 32 0 } =
      (.error .Overflow, { counter := 2 ^ 128, key := List.replicate 32 0 }) :=
  ⟨reach_counter (2 ^ 128), by norm_num, by rfl⟩

/-- C1 (amended): for every `n`, `pseudo_random_data n` on a generator
with `counter > 0` succeeds and returns exactly `n` bytes, provided the
cipher emits 16-byte blocks and every counter value used by the request
stays below `2^128` (`counter + totalBlocks n ≤ 2^128`); without that
bound the call can instead raise `Overflow`. -/
theorem claim_C1 (aes : List Nat → List Nat → List Nat)
    (h16 : ∀ k b, (aes k b).length = 16) (n c : Nat) (key : List Nat)
    (hc : 0 < c) (hb : c + totalBlocks n ≤ 2 ^ 128) :
    ∃ out s', pseudo_random_data aes n { counter := c, key := key } = (.ok out, s') ∧
      out.length = n := by
  obtain ⟨out, key2, heq, hlen⟩ :=
    pseudo_random_data_ok aes h16 n c key (Nat.pos_iff_ne_zero.mp hc) hb
  exact ⟨out, _, heq, hlen⟩

theorem claim_C1_witness :
    (0 < 1 ∧ 1 + totalBlocks 5 ≤ 2 ^ 128) ∧
    (∃ out s', pseudo_random_data zAes 5 { counter := 1, key := List.replicate 32 0 } =
        (.ok out, s') ∧ out.length = 5) :=
  ⟨⟨by decide, by decide⟩,
   claim_C1 zAes zAes_len 5 1 (List.replicate 32 0) (by decide) (by decide)⟩

/-- C2: an unseeded generator (`counter = 0`) fails every
`pseudo_random_data` request with `NotSeeded`, and `_generate_blocks`
fails with `NotSeeded` exactly when `counter = 0`. -/
theorem claim_C2 (aes : List Nat → List Nat → List Nat) (s : GenState) (n k : Nat) :
    (s.counter = 0 → (pseudo_random_data aes n s).1 = .error .NotSeeded) ∧
    ((generate_blocks aes k s).1 = .error .NotSeeded ↔ s.counter = 0) := by
  constructor
  · intro hs
    rw [pseudo_random_data_notSeeded aes n s hs]
  · constructor
    · intro h
      by_contra hs
      unfold generate_blocks at h
      rw [if_neg hs] at h
      by_cases hk : max_blocks_per_request < k
      · rw [if_pos hk] at h
        cases h
      · rw [if_neg hk] at h
        rcases hloop : genBlocksLoop aes s.key k s.counter with ⟨res, c'⟩
        rw [hloop] at h
        cases res with
        | error e =>
          dsimp only at h
          cases h
          rcases genBlocksLoop_error aes s.key k s.counter _ (by rw [hloop]) with h1 | h1 | h1 <;>
            cases h1
        | ok out => cases h
    · intro hs
      unfold generate_blocks
      rw [if_pos hs]

theorem claim_C2_witness :
    ((initState.counter = 0 → (pseudo_random_data zAes 5 initState).1 = .error .NotSeeded) ∧
      ((generate_blocks zAes 3 initState).1 = .error .NotSeeded ↔ initState.counter = 0)) ∧
    (pseudo_random_data zAes 5 initState).1 = .error .NotSeeded :=
  ⟨claim_C2 zAes initState 5 3, (claim_C2 zAes initState 5 3).1 rfl⟩

/-- C10: on an unseeded generator every request fails with `NotSeeded`
and the state is returned untouched: the counter is still 0 and the key
is unchanged (the all-zero initial key when never reseeded). -/
theorem claim_C10 :
    (∀ (aes : List Nat → List Nat → List Nat) (n : Nat) (s : GenState),
      s.counter = 0 → pseudo_random_data aes n s = (.error .NotSeeded, s)) ∧
    initState.counter = 0 ∧ initState.key = List.replicate 32 0 :=
  ⟨fun aes n s hs => pseudo_random_data_notSeeded aes n s hs, rfl, rfl⟩

theorem claim_C10_witness :
    initState.counter = 0 ∧
    pseudo_random_data zAes 7 initState = (.error .NotSeeded, initState) :=
  ⟨rfl, claim_C10.1 zAes 7 initState rfl⟩

/-- C5: for every seed, `reseed` sets the key to `Hash(old_key ++ seed)`
and increments the counter by exactly 1 (it never resets it); the call
succeeds precisely when the digest length equals `key_size`, and raises
the `KeySizeMismatch` invariant violation otherwise. -/
theorem claim_C5 (hash : List Nat → List Nat) (s : GenState) (seed : List Nat) :
    (reseed hash seed s).2 = { counter := s.counter + 1, key := hash (s.key ++ seed) } ∧
    ((hash (s.key ++ seed)).length = key_size → (reseed hash seed s).1 = .ok ()) ∧
    ((hash (s.key ++ seed)).length ≠ key_size →
      (reseed hash seed s).1 = .error .KeySizeMismatch) := by
  unfold reseed
  dsimp only
  by_cases h : (hash (s.key ++ seed)).length = key_size
  · rw [if_pos h]
    exact ⟨rfl, fun _ => rfl, fun hne => absurd h hne⟩
  · rw [if_neg h]
    exact ⟨rfl, fun hc => absurd hc h, fun _ => rfl⟩

theorem claim_C5_witness :
    ((reseed zHash [1, 2] initState).2 =
      { counter := initState.counter + 1, key := zHash (initState.key ++ [1, 2]) }) ∧
    (zHash (initState.key ++ [1, 2])).length = key_size ∧
    (reseed zHash [1, 2] initState).1 = .ok () :=
  ⟨(claim_C5 zHash initState [1, 2]).1, by decide,
   (claim_C5 zHash initState [1, 2]).2.1 (by decide)⟩

/-! ### Chunk decomposition of `pseudo_random_data` -/

/-- Processing a list of chunk requests in order, threading the state,
concatenating the outputs and propagating the first failure. -/
def processChunks (aes : List Nat → List Nat → List Nat) :
    List Nat → GenState → Except Err (List Nat) × GenState
  | [], s => (.ok [], s)
  | b :: rest, s =>
    match pseudo_random_data_chunk aes b s with
    | (.error e, s1) => (.error e, s1)
    | (.ok out, s1) =>
      match processChunks aes rest s1 with
      | (.error e, s2) => (.error e, s2)
      | (.ok outs, s2) => (.ok (out ++ outs), s2)

theorem prdLoop_eq_processChunks (aes : List Nat → List Nat → List Nat) :
    ∀ (k : Nat) (s : GenState),
      prdLoop aes k s = processChunks aes (List.replicate k (2 ^ 20)) s := by
  intro k
  induction k with
  | zero => intro s; rfl
  | succ k ih =>
    intro s
    rw [prdLoop, List.replicate_succ, processChunks]
    rcases h : pseudo_random_data_chunk aes (2 ^ 20) s with ⟨res, s1⟩
    cases res with
    | error e => rfl
    | ok out =>
      dsimp only
      rw [ih s1]

theorem processChunks_append (aes : List Nat → List Nat → List Nat) :
    ∀ (l1 l2 : List Nat) (s : GenState),
      processChunks aes (l1 ++ l2) s =
        match processChunks aes l1 s with
        | (.error e, s1) => (.error e, s1)
        | (.ok out, s1) =>
          match processChunks aes l2 s1 with
          | (.error e, s2) => (.error e, s2)
          | (.ok outs, s2) => (.ok (out ++ outs), s2) := by
  intro l1
  induction l1 with
  | nil =>
    intro l2 s
    simp only [List.nil_append, processChunks]
    rcases h : processChunks aes l2 s with ⟨res, s2⟩
    cases res with
    | error e => rfl
    | ok outs => simp
  | cons b rest ih =>
    intro l2 s
    show processChunks aes (b :: (rest ++ l2)) s = _
    rw [processChunks, processChunks]
    rcases h1 : pseudo_random_data_chunk aes b s with ⟨res1, s1⟩
    cases res1 with
    | error e => rfl
    | ok out =>
      dsimp only
      rw [ih l2 s1]
      rcases h2 : processChunks aes rest s1 with ⟨res2, s2⟩
      cases res2 with
      | error e => rfl
      | ok outs =>
        dsimp only
        rcases h3 : processChunks aes l2 s2 with ⟨res3, s3⟩
        cases res3 with
        | error e => rfl
        | ok outs3 => simp [List.append_assoc]

/-- `pseudo_random_data n` is exactly the sequential processing of
`floor(n / 2^20)` full `2^20`-byte chunks followed by one final chunk of
`n mod 2^20` bytes (so the chunk list is never empty: a request of 0
bytes still processes one zero-length chunk, and a request that is a
positive multiple of `2^20` processes an extra zero-length chunk). -/
theorem pseudo_random_data_eq_processChunks (aes : List Nat → List Nat → List Nat)
    (n : Nat) (s : GenState) :
    pseudo_random_data aes n s =
      processChunks aes (List.replicate (n / 2 ^ 20) (2 ^ 20) ++ [n % 2 ^ 20]) s := by
  unfold pseudo_random_data
  rw [prdLoop_eq_processChunks, processChunks_append]
  rcases h1 : processChunks aes (List.replicate (n / 2 ^ 20) (2 ^ 20)) s with ⟨res1, s1⟩
  cases res1 with
  | error e => rfl
  | ok full =>
    dsimp only
    rw [processChunks]
    rcases h2 : pseudo_random_data_chunk aes (n % 2 ^ 20) s1 with ⟨res2, s2⟩
    cases res2 with
    | error e => rfl
    | ok last => simp [processChunks]

/-- C4: `pseudo_random_data n` processes exactly `floor(n / 2^20)` full
`2^20`-byte chunks plus one final chunk of `n mod 2^20` bytes (at least
one chunk even when `n = 0`, and an extra zero-length chunk when `n` is
a positive multiple of `2^20`); and every chunk — including zero-length
ones — after truncating its output unconditionally generates
`blocks_per_key` further blocks and installs them as the new key, so the
counter advances by `chunkBlocks b = ceil(b/16) + blocks_per_key` and
the key is rotated once per processed chunk. -/
theorem claim_C4 :
    (∀ (aes : List Nat → List Nat → List Nat) (n : Nat) (s : GenState),
      pseudo_random_data aes n s =
        processChunks aes (List.replicate (n / 2 ^ 20) (2 ^ 20) ++ [n % 2 ^ 20]) s) ∧
    (∀ b, chunkBlocks b = ceil_shift b 4 + blocks_per_key) ∧
    (∀ (aes : List Nat → List Nat → List Nat), (∀ k b, (aes k b).length = 16) →
      ∀ (b c : Nat) (key : List Nat), b ≤ max_bytes_per_request → c ≠ 0 →
        c + chunkBlocks b ≤ 2 ^ 128 →
        pseudo_random_data_chunk aes b { counter := c, key := key } =
          (.ok ((blockSeq aes key c (ceil_shift b 4)).take b),
           { counter := c + chunkBlocks b,
             key := blockSeq aes key (c + ceil_shift b 4) blocks_per_key })) :=
  ⟨pseudo_random_data_eq_processChunks, fun _ => rfl,
   fun aes h16 b c key hb h0 hctr => pseudo_random_data_chunk_ok aes h16 b c key hb h0 hctr⟩

theorem claim_C4_witness :
    (pseudo_random_data zAes 0 initState =
      processChunks zAes (List.replicate (0 / 2 ^ 20) (2 ^ 20) ++ [0 % 2 ^ 20]) initState) ∧
    ((0 : Nat) ≤ max_bytes_per_request ∧ (1 : Nat) ≠ 0 ∧ 1 + chunkBlocks 0 ≤ 2 ^ 128) ∧
    pseudo_random_data_chunk zAes 0 { counter := 1, key := List.replicate 32 0 } =
      (.ok ((blockSeq zAes (List.replicate 32 0) 1 (ceil_shift 0 4)).take 0),
       { counter := 1 + chunkBlocks 0,
         key := blockSeq zAes (List.replicate 32 0) (1 + ceil_shift 0 4) blocks_per_key }) :=
  ⟨claim_C4.1 zAes 0 initState, ⟨by decide, by decide, by decide⟩,
   claim_C4.2.2 zAes zAes_len 0 1 (List.replicate 32 0) (by decide) (by decide) (by decide)⟩

/-! ### The cipher is never handed counter 0 -/

theorem generate_single_block_err_ne_czc (aes : List Nat → List Nat → List Nat)
    (key : List Nat) (c : Nat) (e : Err) (hc : c ≠ 0)
    (h : generate_single_block aes key c = .error e) : e ≠ .CounterZeroCipher := by
  rcases generate_single_block_error aes key c e h with h1 | h1 | h1
  · exfalso
    unfold generate_single_block at h
    rw [if_neg hc] at h
    cases henc : encode_counter (c : Int) block_size with
    | error e2 =>
      rw [henc] at h
      have he2 := Except.error.inj h
      rcases encode_counter_error _ _ _ henc with h2 | h2 <;> rw [he2, h1] at h2 <;> cases h2
    | ok ctr =>
      rw [henc] at h
      cases h
  · rw [h1]; intro hc2; cases hc2
  · rw [h1]; intro hc2; cases hc2

theorem genBlocksLoop_no_czc (aes : List Nat → List Nat → List Nat) (key : List Nat) :
    ∀ (k c : Nat), c ≠ 0 → (genBlocksLoop aes key k c).1 ≠ .error .CounterZeroCipher := by
  intro k
  induction k with
  | zero => intro c hc h; cases h
  | succ k ih =>
    intro c hc h
    rw [genBlocksLoop] at h
    cases hsb : generate_single_block aes key c with
    | error e =>
      rw [hsb] at h
      dsimp only at h
      cases h
      exact generate_single_block_err_ne_czc aes key c _ hc hsb rfl
    | ok b =>
      rw [hsb] at h
      dsimp only at h
      rcases hrec : genBlocksLoop aes key k (c + 1) with ⟨res, c'⟩
      rw [hrec] at h
      cases res with
      | error e =>
        dsimp only at h
        cases h
        exact ih (c + 1) (by omega) (by rw [hrec])
      | ok rest => cases h

theorem generate_blocks_no_czc (aes : List Nat → List Nat → List Nat)
    (k : Nat) (s : GenState) :
    (generate_blocks aes k s).1 ≠ .error .CounterZeroCipher := by
  unfold generate_blocks
  by_cases hs : s.counter = 0
  · rw [if_pos hs]; intro h; cases h
  · rw [if_neg hs]
    by_cases hk : max_blocks_per_request < k
    · rw [if_pos hk]; intro h; cases h
    · rw [if_neg hk]
      rcases hloop : genBlocksLoop aes s.key k s.counter with ⟨res, c'⟩
      cases res with
      | error e =>
        dsimp only
        intro h
        injection h with h2
        exact genBlocksLoop_no_czc aes s.key k s.counter hs (by rw [hloop, h2])
      | ok out => intro h; cases h

theorem pseudo_random_data_chunk_no_czc (aes : List Nat → List Nat → List Nat)
    (b : Nat) (s : GenState) :
    (pseudo_random_data_chunk aes b s).1 ≠ .error .CounterZeroCipher := by
  unfold pseudo_random_data_chunk
  dsimp only
  by_cases hb : max_bytes_per_request < b
  · rw [if_pos hb]; intro h; cases h
  · rw [if_neg hb]
    rcases h1 : generate_blocks aes (ceil_shift b 4) s with ⟨res1, s1⟩
    cases res1 with
    | error e =>
      dsimp only
      intro h
      injection h with h2
      exact generate_blocks_no_czc aes (ceil_shift b 4) s (by rw [h1, h2])
    | ok out =>
      dsimp only
      rcases h2 : generate_blocks aes blocks_per_key s1 with ⟨res2, s2⟩
      cases res2 with
      | error e =>
        dsimp only
        intro h
        injection h with h3
        exact generate_blocks_no_czc aes blocks_per_key s1 (by rw [h2, h3])
      | ok newkey =>
        dsimp only
        by_cases hr : (List.take b out).length ≠ b
        · rw [if_pos hr]; intro h; cases h
        · rw [if_neg hr]
          by_cases hkl : newkey.length ≠ key_size
          · rw [if_pos hkl]; intro h; cases h
          · rw [if_neg hkl]; intro h; cases h

theorem prdLoop_no_czc (aes : List Nat → List Nat → List Nat) :
    ∀ (k : Nat) (s : GenState), (prdLoop aes k s).1 ≠ .error .CounterZeroCipher := by
  intro k
  induction k with
  | zero => intro s h; cases h
  | succ k ih =>
    intro s h
    rw [prdLoop] at h
    rcases h1 : pseudo_random_data_chunk aes (2 ^ 20) s with ⟨res1, s1⟩
    rw [h1] at h
    cases res1 with
    | error e =>
      dsimp only at h
      cases h
      exact pseudo_random_data_chunk_no_czc aes (2 ^ 20) s (by rw [h1])
    | ok out =>
      dsimp only at h
      rcases h2 : prdLoop aes k s1 with ⟨res2, s2⟩
      rw [h2] at h
      cases res2 with
      | error e =>
        dsimp only at h
        cases h
        exact ih s1 (by rw [h2])
      | ok rest => cases h

theorem pseudo_random_data_no_czc (aes : List Nat → List Nat → List Nat)
    (n : Nat) (s : GenState) :
    (pseudo_random_data aes n s).1 ≠ .error .CounterZeroCipher := by
  unfold pseudo_random_data
  rcases h1 : prdLoop aes (n / 2 ^ 20) s with ⟨res1, s1⟩
  cases res1 with
  | error e =>
    dsimp only
    intro h
    injection h with h2
    exact prdLoop_no_czc aes (n / 2 ^ 20) s (by rw [h1, h2])
  | ok full =>
    dsimp only
    rcases h2 : pseudo_random_data_chunk aes (n % 2 ^ 20) s1 with ⟨res2, s2⟩
    cases res2 with
    | error e =>
      dsimp only
      intro h
      injection h with h3
      exact pseudo_random_data_chunk_no_czc aes (n % 2 ^ 20) s1 (by rw [h2, h3])
    | ok last =>
      intro h
      cases h

/-- C9: neither `_generate_blocks` nor `pseudo_random_data` can ever
surface the counter-nonzero assertion of `_generate_single_block` — the
cipher-level function is never invoked with counter 0 — because block
generation with `counter = 0` already fails with `NotSeeded` one layer
up, before any block is requested from the cipher. -/
theorem claim_C9 (aes : List Nat → List Nat → List Nat) (s : GenState) (k n : Nat) :
    (generate_blocks aes k s).1 ≠ .error .CounterZeroCipher ∧
    (pseudo_random_data aes n s).1 ≠ .error .CounterZeroCipher ∧
    (s.counter = 0 → generate_blocks aes k s = (.error .NotSeeded, s)) := by
  refine ⟨generate_blocks_no_czc aes k s, pseudo_random_data_no_czc aes n s, fun hs => ?_⟩
  unfold generate_blocks
  rw [if_pos hs]

theorem claim_C9_witness :
    ((generate_blocks zAes 3 initState).1 ≠ .error .CounterZeroCipher) ∧
    ((pseudo_random_data zAes 5 initState).1 ≠ .error .CounterZeroCipher) ∧
    generate_blocks zAes 3 initState = (.error .NotSeeded, initState) :=
  ⟨(claim_C9 zAes initState 3 5).1, (claim_C9 zAes initState 3 5).2.1,
   (claim_C9 zAes initState 3 5).2.2 rfl⟩

/-! ### Counter accounting -/

theorem genBlocksLoop_counter_le (aes : List Nat → List Nat → List Nat) (key : List Nat) :
    ∀ (k c : Nat), c ≤ (genBlocksLoop aes key k c).2 := by
  intro k
  induction k with
  | zero => intro c; exact le_refl c
  | succ k ih =>
    intro c
    rw [genBlocksLoop]
    cases hsb : generate_single_block aes key c with
    | error e => exact le_refl c
    | ok b =>
      dsimp only
      rcases hrec : genBlocksLoop aes key k (c + 1) with ⟨res, c'⟩
      have hle := ih (c + 1)
      rw [hrec] at hle
      cases res with
      | error e => dsimp only at hle ⊢; omega
      | ok rest => dsimp only at hle ⊢; omega

theorem genBlocksLoop_ok_counter (aes : List Nat → List Nat → List Nat) (key : List Nat) :
    ∀ (k c : Nat) (out : List Nat) (c' : Nat),
      genBlocksLoop aes key k c = (.ok out, c') → c' = c + k := by
  intro k
  induction k with
  | zero =>
    intro c out c' h
    injection h with h1 h2
    omega
  | succ k ih =>
    intro c out c' h
    rw [genBlocksLoop] at h
    cases hsb : generate_single_block aes key c with
    | error e =>
      rw [hsb] at h
      injection h with h1 h2
      cases h1
    | ok b =>
      rw [hsb] at h
      dsimp only at h
      rcases hrec : genBlocksLoop aes key k (c + 1) with ⟨res, c2⟩
      rw [hrec] at h
      cases res with
      | error e =>
        injection h with h1 h2
        cases h1
      | ok rest =>
        dsimp only at h
        injection h with h1 h2
        have := ih (c + 1) rest c2 hrec
        omega

theorem generate_blocks_ok_state (aes : List Nat → List Nat → List Nat)
    (k : Nat) (s : GenState) (out : List Nat) (s' : GenState)
    (h : generate_blocks aes k s = (.ok out, s')) :
    s'.counter = s.counter + k ∧ s'.key = s.key := by
  unfold generate_blocks at h
  by_cases hs : s.counter = 0
  · rw [if_pos hs] at h
    injection h with h1 h2
    cases h1
  · rw [if_neg hs] at h
    by_cases hk : max_blocks_per_request < k
    · rw [if_pos hk] at h
      injection h with h1 h2
      cases h1
    · rw [if_neg hk] at h
      rcases hloop : genBlocksLoop aes s.key k s.counter with ⟨res, c'⟩
      rw [hloop] at h
      cases res with
      | error e =>
        injection h with h1 h2
        cases h1
      | ok o =>
        dsimp only at h
        injection h with h1 h2
        subst h2
        exact ⟨genBlocksLoop_ok_counter aes s.key k s.counter o c' hloop, rfl⟩

theorem generate_blocks_counter_le (aes : List Nat → List Nat → List Nat)
    (k : Nat) (s : GenState) : s.counter ≤ (generate_blocks aes k s).2.counter := by
  unfold generate_blocks
  by_cases hs : s.counter = 0
  · rw [if_pos hs]
  · rw [if_neg hs]
    by_cases hk : max_blocks_per_request < k
    · rw [if_pos hk]
    · rw [if_neg hk]
      rcases hloop : genBlocksLoop aes s.key k s.counter with ⟨res, c'⟩
      have hle := genBlocksLoop_counter_le aes s.key k s.counter
      rw [hloop] at hle
      cases res with
      | error e => exact hle
      | ok o => exact hle

theorem pseudo_random_data_chunk_counter_le (aes : List Nat → List Nat → List Nat)
    (b : Nat) (s : GenState) :
    s.counter ≤ (pseudo_random_data_chunk aes b s).2.counter := by
  unfold pseudo_random_data_chunk
  dsimp only
  by_cases hb : max_bytes_per_request < b
  · rw [if_pos hb]
  · rw [if_neg hb]
    rcases h1 : generate_blocks aes (ceil_shift b 4) s with ⟨res1, s1⟩
    have l1 := generate_blocks_counter_le aes (ceil_shift b 4) s
    rw [h1] at l1
    cases res1 with
    | error e => exact l1
    | ok out =>
      dsimp only
      rcases h2 : generate_blocks aes blocks_per_key s1 with ⟨res2, s2⟩
      have l2 := generate_blocks_counter_le aes blocks_per_key s1
      rw [h2] at l2
      cases res2 with
      | error e => exact le_trans l1 l2
      | ok newkey =>
        dsimp only
        by_cases hr : (List.take b out).length ≠ b
        · rw [if_pos hr]
          exact le_trans l1 l2
        · rw [if_neg hr]
          by_cases hkl : newkey.length ≠ key_size
          · rw [if_pos hkl]
            exact le_trans l1 l2
          · rw [if_neg hkl]
            exact le_trans l1 l2

theorem prdLoop_counter_le (aes : List Nat → List Nat → List Nat) :
    ∀ (k : Nat) (s : GenState), s.counter ≤ (prdLoop aes k s).2.counter := by
  intro k
  induction k with
  | zero => intro s; exact le_refl _
  | succ k ih =>
    intro s
    rw [prdLoop]
    rcases h1 : pseudo_random_data_chunk aes (2 ^ 20) s with ⟨res1, s1⟩
    have l1 := pseudo_random_data_chunk_counter_le aes (2 ^ 20) s
    rw [h1] at l1
    cases res1 with
    | error e => exact l1
    | ok out =>
      dsimp only
      rcases h2 : prdLoop aes k s1 with ⟨res2, s2⟩
      have l2 := ih s1
      rw [h2] at l2
      cases res2 with
      | error e => exact le_trans l1 l2
      | ok rest => exact le_trans l1 l2

theorem pseudo_random_data_counter_le (aes : List Nat → List Nat → List Nat)
    (n : Nat) (s : GenState) :
    s.counter ≤ (pseudo_random_data aes n s).2.counter := by
  unfold pseudo_random_data
  rcases h1 : prdLoop aes (n / 2 ^ 20) s with ⟨res1, s1⟩
  have l1 := prdLoop_counter_le aes (n / 2 ^ 20) s
  rw [h1] at l1
  cases res1 with
  | error e => exact l1
  | ok full =>
    dsimp only
    rcases h2 : pseudo_random_data_chunk aes (n % 2 ^ 20) s1 with ⟨res2, s2⟩
    have l2 := pseudo_random_data_chunk_counter_le aes (n % 2 ^ 20) s1
    rw [h2] at l2
    cases res2 with
    | error e => exact le_trans l1 l2
    | ok last => exact le_trans l1 l2

theorem reseed_counter (hash : List Nat → List Nat) (seed : List Nat) (s : GenState) :
    (reseed hash seed s).2.counter = s.counter + 1 := by
  unfold reseed
  dsimp only
  by_cases h : (hash (s.key ++ seed)).length = key_size
  · rw [if_pos h]
  · rw [if_neg h]

/-- In every reachable state, the counter is zero exactly when the trace
contains no successful reseed. -/
theorem reachable_counter_iff (aes : List Nat → List Nat → List Nat)
    (hash : List Nat → List Nat) :
    ∀ (t : List Op) (s : GenState), ReachableVia aes hash t s →
      (s.counter = 0 ↔ ∀ op ∈ t, op.isReseed = false) := by
  intro t s h
  induction h with
  | init => simp [initState]
  | @reseedStep t s seed s' ht heq ih =>
    have hctr : s'.counter = s.counter + 1 := by
      have := reseed_counter hash seed s
      rw [heq] at this
      exact this
    constructor
    · intro h0
      omega
    · intro hall
      have := hall (.reseedOp seed) (by simp)
      simp [Op.isReseed] at this
  | @requestStep t s n out s' ht heq ih =>
    have hne : s.counter ≠ 0 := by
      intro h0
      rw [pseudo_random_data_notSeeded aes n s h0] at heq
      injection heq with h1 h2
      cases h1
    have hmono : s.counter ≤ s'.counter := by
      have := pseudo_random_data_counter_le aes n s
      rw [heq] at this
      exact this
    constructor
    · intro h0
      omega
    · intro hall
      exfalso
      exact hne (ih.mpr fun op hop => hall op (by simp [hop]))

/-- C6: in every reachable state the counter is zero exactly when no
reseed has ever succeeded; each successful block-generation call
advances the counter by exactly 1 per block produced (leaving the key
untouched) and each reseed by exactly 1; the counter never decreases
across any call; and a successful block-generation run emits, at the
pairwise distinct counters `counter, counter+1, ...`, the encryptions of
those encoded counters under the single key held throughout the run, so
every emitted block corresponds to a unique `(key, counter)` pair. -/
theorem claim_C6 :
    (∀ (aes : List Nat → List Nat → List Nat) (hash : List Nat → List Nat)
      (t : List Op) (s : GenState), ReachableVia aes hash t s →
      (s.counter = 0 ↔ ∀ op ∈ t, op.isReseed = false)) ∧
    (∀ (aes : List Nat → List Nat → List Nat) (k : Nat) (s : GenState)
      (out : List Nat) (s' : GenState), generate_blocks aes k s = (.ok out, s') →
      s'.counter = s.counter + k ∧ s'.key = s.key) ∧
    (∀ (hash : List Nat → List Nat) (seed : List Nat) (s : GenState),
      (reseed hash seed s).2.counter = s.counter + 1) ∧
    (∀ (aes : List Nat → List Nat → List Nat) (n : Nat) (s : GenState),
      s.counter ≤ (pseudo_random_data aes n s).2.counter) ∧
    (∀ (aes : List Nat → List Nat → List Nat) (k : Nat) (s : GenState),
      s.counter ≤ (generate_blocks aes k s).2.counter) ∧
    (∀ (aes : List Nat → List Nat → List Nat) (k : Nat) (s : GenState),
      s.counter ≠ 0 → k ≤ max_blocks_per_request → s.counter + k ≤ 2 ^ 128 →
      generate_blocks aes k s =
        (.ok (blockSeq aes s.key s.counter k),
         { counter := s.counter + k, key := s.key })) :=
  ⟨reachable_counter_iff, generate_blocks_ok_state, reseed_counter,
   pseudo_random_data_counter_le, generate_blocks_counter_le,
   fun aes k s h0 hk hb => generate_blocks_ok aes k s h0 hk hb⟩

theorem claim_C6_witness :
    (initState.counter = 0 ↔ ∀ op ∈ ([] : List Op), op.isReseed = false) ∧
    (({ counter := 2, key := List.replicate 32 0 } : GenState).counter =
        ({ counter := 1, key := List.replicate 32 0 } : GenState).counter + 1 ∧
      ({ counter := 2, key := List.replicate 32 0 } : GenState).key =
        ({ counter := 1, key := List.replicate 32 0 } : GenState).key) ∧
    generate_blocks zAes 1 { counter := 1, key := List.replicate 32 0 } =
      (.ok (blockSeq zAes (List.replicate 32 0) 1 1),
       { counter := 1 + 1, key := List.replicate 32 0 }) :=
  ⟨claim_C6.1 zAes zHash [] initState ReachableVia.init,
   claim_C6.2.1 zAes 1 { counter := 1, key := List.replicate 32 0 }
     (blockSeq zAes (List.replicate 32 0) 1 1) { counter := 2, key := List.replicate 32 0 }
     (claim_C6.2.2.2.2.2 zAes 1 { counter := 1, key := List.replicate 32 0 }
       (by decide) (by decide) (by decide)),
   claim_C6.2.2.2.2.2 zAes 1 { counter := 1, key := List.replicate 32 0 }
     (by decide) (by decide) (by decide)⟩

/-! ### Chunk-boundary behaviour (claim C3) -/

theorem ceil_shift_full : ceil_shift (2 ^ 20) 4 = 2 ^ 16 := by
  norm_num [ceil_shift]

theorem chunkBlocks_zero : chunkBlocks 0 = 2 := rfl

/-- The amended chunk-boundary relationship: one `2^21`-byte call and
the first of two `2^20`-byte calls from the same state agree on the
first `2^20` bytes — the smaller call returns exactly the first half of
the larger call's output. -/
theorem prd_two_mega_prefix (aes : List Nat → List Nat → List Nat)
    (h16 : ∀ k b, (aes k b).length = 16) (c : Nat) (key : List Nat)
    (hc : c ≠ 0) (hb : c + 2 ^ 17 + 6 ≤ 2 ^ 128) :
    ∃ oBig sB o1 s1,
      pseudo_random_data aes (2 ^ 21) { counter := c, key := key } = (.ok oBig, sB) ∧
      pseudo_random_data aes (2 ^ 20) { counter := c, key := key } = (.ok o1, s1) ∧
      oBig.length = 2 ^ 21 ∧ o1.length = 2 ^ 20 ∧ o1 = oBig.take (2 ^ 20) := by
  have h20 : (2 ^ 20 : Nat) ≤ max_bytes_per_request := le_of_eq max_bytes_eq.symm
  have h0 : (0 : Nat) ≤ max_bytes_per_request := Nat.zero_le _
  have e1 := pseudo_random_data_chunk_ok aes h16 (2 ^ 20) c key h20 hc
    (by rw [chunkBlocks_full]; omega)
  have hc1 : c + chunkBlocks (2 ^ 20) ≠ 0 := by omega
  have e2 := pseudo_random_data_chunk_ok aes h16 (2 ^ 20) (c + chunkBlocks (2 ^ 20))
    (blockSeq aes key (c + ceil_shift (2 ^ 20) 4) blocks_per_key) h20 hc1
    (by rw [chunkBlocks_full]; omega)
  have hc2 : c + chunkBlocks (2 ^ 20) + chunkBlocks (2 ^ 20) ≠ 0 := by omega
  have e0Big := pseudo_random_data_chunk_ok aes h16 0
    (c + chunkBlocks (2 ^ 20) + chunkBlocks (2 ^ 20))
    (blockSeq aes
      (blockSeq aes key (c + ceil_shift (2 ^ 20) 4) blocks_per_key)
      (c + chunkBlocks (2 ^ 20) + ceil_shift (2 ^ 20) 4) blocks_per_key) h0 hc2
    (by rw [chunkBlocks_full, chunkBlocks_zero]; omega)
  have e0Small := pseudo_random_data_chunk_ok aes h16 0 (c + chunkBlocks (2 ^ 20))
    (blockSeq aes key (c + ceil_shift (2 ^ 20) 4) blocks_per_key) h0 hc1
    (by rw [chunkBlocks_full, chunkBlocks_zero]; omega)
  have hdivBig : (2 ^ 21 : Nat) / 2 ^ 20 = 2 := by norm_num
  have hmodBig : (2 ^ 21 : Nat) % 2 ^ 20 = 0 := by norm_num
  have hdivSmall : (2 ^ 20 : Nat) / 2 ^ 20 = 1 := by norm_num
  have hmodSmall : (2 ^ 20 : Nat) % 2 ^ 20 = 0 := by norm_num
  have hlen1 : ((blockSeq aes key c (ceil_shift (2 ^ 20) 4)).take (2 ^ 20)).length = 2 ^ 20 := by
    rw [List.length_take, blockSeq_length aes key h16, ceil_shift_full]
    norm_num
  have hlen2 : ((blockSeq aes
      (blockSeq aes key (c + ceil_shift (2 ^ 20) 4) blocks_per_key)
      (c + chunkBlocks (2 ^ 20)) (ceil_shift (2 ^ 20) 4)).take (2 ^ 20)).length = 2 ^ 20 := by
    rw [List.length_take, blockSeq_length aes _ h16, ceil_shift_full]
    norm_num
  refine ⟨((blockSeq aes key c (ceil_shift (2 ^ 20) 4)).take (2 ^ 20) ++
      ((blockSeq aes (blockSeq aes key (c + ceil_shift (2 ^ 20) 4) blocks_per_key)
          (c + chunkBlocks (2 ^ 20)) (ceil_shift (2 ^ 20) 4)).take (2 ^ 20) ++ [])) ++
      (blockSeq aes
        (blockSeq aes (blockSeq aes key (c + ceil_shift (2 ^ 20) 4) blocks_per_key)
          (c + chunkBlocks (2 ^ 20) + ceil_shift (2 ^ 20) 4) blocks_per_key)
        (c + chunkBlocks (2 ^ 20) + chunkBlocks (2 ^ 20)) (ceil_shift 0 4)).take 0,
    { counter := c + chunkBlocks (2 ^ 20) + chunkBlocks (2 ^ 20) + chunkBlocks 0,
      key := blockSeq aes
        (blockSeq aes (blockSeq aes key (c + ceil_shift (2 ^ 20) 4) blocks_per_key)
          (c + chunkBlocks (2 ^ 20) + ceil_shift (2 ^ 20) 4) blocks_per_key)
        (c + chunkBlocks (2 ^ 20) + chunkBlocks (2 ^ 20) + ceil_shift 0 4) blocks_per_key },
    ((blockSeq aes key c (ceil_shift (2 ^ 20) 4)).take (2 ^ 20) ++ []) ++
      (blockSeq aes (blockSeq aes key (c + ceil_shift (2 ^ 20) 4) blocks_per_key)
        (c + chunkBlocks (2 ^ 20)) (ceil_shift 0 4)).take 0,
    { counter := c + chunkBlocks (2 ^ 20) + chunkBlocks 0,
      key := blockSeq aes (blockSeq aes key (c + ceil_shift (2 ^ 20) 4) blocks_per_key)
        (c + chunkBlocks (2 ^ 20) + ceil_shift 0 4) blocks_per_key },
    ?_, ?_, ?_, ?_, ?_⟩
  · unfold pseudo_random_data
    rw [hdivBig, hmodBig, prdLoop, e1]
    dsimp only
    rw [prdLoop, e2]
    dsimp only
    rw [prdLoop]
    dsimp only
    rw [e0Big]
  · unfold pseudo_random_data
    rw [hdivSmall, hmodSmall, prdLoop, e1]
    dsimp only
    rw [prdLoop]
    dsimp only
    rw [e0Small]
  · simp only [List.take_zero, List.append_nil, List.length_append, hlen1, hlen2]
    norm_num
  · simp only [List.take_zero, List.append_nil, hlen1]
  · simp only [List.take_zero, List.append_nil]
    exact (List.take_left' hlen1).symm

/-- A cipher that makes key rotations visible: every block is 16 copies
of (first key byte + 1). -/
def cexAes : List Nat → List Nat → List Nat :=
  fun k _ => List.replicate 16 (k.headD 0 + 1)

theorem cexAes_len : ∀ k b, (cexAes k b).length = 16 := by
  intro k b
  simp [cexAes]

theorem headD_replicate (n a d : Nat) (h : n ≠ 0) : (List.replicate n a).headD d = a := by
  cases n with
  | zero => omega
  | succ n => rfl

theorem blockSeq_cex (key : List Nat) (c k : Nat) :
    blockSeq cexAes key c k = List.replicate (16 * k) (key.headD 0 + 1) := by
  induction k generalizing c with
  | zero => simp [blockSeq_zero]
  | succ k ih =>
    rw [blockSeq_succ, ih (c + 1)]
    show List.replicate 16 (key.headD 0 + 1) ++ _ = _
    rw [← List.replicate_add]
    congr 1
    omega

theorem cex_chunk (b c v : Nat) (hb : b ≤ max_bytes_per_request) (hc : c ≠ 0)
    (hctr : c + chunkBlocks b ≤ 2 ^ 128) :
    pseudo_random_data_chunk cexAes b { counter := c, key := List.replicate 32 v } =
      (.ok (List.replicate b (v + 1)),
       { counter := c + chunkBlocks b, key := List.replicate 32 (v + 1) }) := by
  rw [pseudo_random_data_chunk_ok cexAes cexAes_len b c (List.replicate 32 v) hb hc hctr,
    blockSeq_cex, blockSeq_cex, headD_replicate 32 v 0 (by omega), List.take_replicate]
  have hq : ceil_shift b 4 = (b + 15) / 16 := by norm_num [ceil_shift]
  have hmin : min b (16 * ceil_shift b 4) = b := by
    rw [hq]
    omega
  rw [hmin]
  norm_num [blocks_per_key, key_size, block_size]

theorem cex_prd_1MiB (c v : Nat) (hc : c ≠ 0) (hctr : c + 2 ^ 16 + 4 ≤ 2 ^ 128) :
    pseudo_random_data cexAes (2 ^ 20) { counter := c, key := List.replicate 32 v } =
      (.ok (List.replicate (2 ^ 20) (v + 1)),
       { counter := c + 2 ^ 16 + 4, key := List.replicate 32 (v + 2) }) := by
  unfold pseudo_random_data
  have hdiv : (2 ^ 20 : Nat) / 2 ^ 20 = 1 := by norm_num
  have hmod : (2 ^ 20 : Nat) % 2 ^ 20 = 0 := by norm_num
  rw [hdiv, hmod, prdLoop,
    cex_chunk (2 ^ 20) c v (le_of_eq max_bytes_eq.symm) hc (by rw [chunkBlocks_full]; omega),
    chunkBlocks_full]
  dsimp only
  rw [prdLoop]
  dsimp only
  rw [cex_chunk 0 (c + (2 ^ 16 + 2)) (v + 1) (Nat.zero_le _) (by omega)
    (by rw [chunkBlocks_zero]; omega), chunkBlocks_zero]
  dsimp only
  rw [show c + (2 ^ 16 + 2) + 2 = c + 2 ^ 16 + 4 by omega]
  simp only [List.replicate_zero, List.append_nil]

theorem cex_prd_2MiB (c v : Nat) (hc : c ≠ 0) (hctr : c + 2 ^ 17 + 6 ≤ 2 ^ 128) :
    pseudo_random_data cexAes (2 ^ 21) { counter := c, key := List.replicate 32 v } =
      (.ok (List.replicate (2 ^ 20) (v + 1) ++ List.replicate (2 ^ 20) (v + 2)),
       { counter := c + 2 ^ 17 + 6, key := List.replicate 32 (v + 3) }) := by
  unfold pseudo_random_data
  have hdiv : (2 ^ 21 : Nat) / 2 ^ 20 = 2 := by norm_num
  have hmod : (2 ^ 21 : Nat) % 2 ^ 20 = 0 := by norm_num
  rw [hdiv, hmod, prdLoop,
    cex_chunk (2 ^ 20) c v (le_of_eq max_bytes_eq.symm) hc (by rw [chunkBlocks_full]; omega),
    chunkBlocks_full]
  dsimp only
  rw [prdLoop,
    cex_chunk (2 ^ 20) (c + (2 ^ 16 + 2)) (v + 1) (le_of_eq max_bytes_eq.symm) (by omega)
      (by rw [chunkBlocks_full]; omega),
    chunkBlocks_full]
  dsimp only
  rw [prdLoop]
  dsimp only
  rw [cex_chunk 0 (c + (2 ^ 16 + 2) + (2 ^ 16 + 2)) (v + 2) (Nat.zero_le _) (by omega)
    (by rw [chunkBlocks_zero]; omega), chunkBlocks_zero]
  dsimp only
  rw [show c + (2 ^ 16 + 2) + (2 ^ 16 + 2) + 2 = c + 2 ^ 17 + 6 by omega]
  simp only [List.replicate_zero, List.append_nil]

/-- C3 counterexample: under `cexAes`, from the seeded state
`(counter, key) = (1, 0^32)`, the single `2^21`-byte request returns
`1^(2^20) ++ 2^(2^20)`, while two successive `2^20`-byte requests return
`1^(2^20)` and then `3^(2^20)`: the trailing zero-length chunk of the
first call performs an extra key rotation, so the concatenation of the
two outputs differs from the single call's output from byte `2^20` on. -/
theorem claim_C3_counterexample :
    pseudo_random_data cexAes (2 ^ 21) { counter := 1, key := List.replicate 32 0 } =
      (.ok (List.replicate (2 ^ 20) 1 ++ List.replicate (2 ^ 20) 2),
       { counter := 1 + 2 ^ 17 + 6, key := List.replicate 32 3 }) ∧
    pseudo_random_data cexAes (2 ^ 20) { counter := 1, key := List.replicate 32 0 } =
      (.ok (List.replicate (2 ^ 20) 1),
       { counter := 1 + 2 ^ 16 + 4, key := List.replicate 32 2 }) ∧
    pseudo_random_data cexAes (2 ^ 20)
        { counter := 1 + 2 ^ 16 + 4, key := List.replicate 32 2 } =
      (.ok (List.replicate (2 ^ 20) 3),
       { counter := 1 + 2 ^ 16 + 4 + 2 ^ 16 + 4, key := List.replicate 32 4 }) ∧
    List.replicate (2 ^ 20) 1 ++ List.replicate (2 ^ 20) 2 ≠
      List.replicate (2 ^ 20) 1 ++ List.replicate (2 ^ 20) 3 := by
  refine ⟨cex_prd_2MiB 1 0 (by omega) (by norm_num),
    cex_prd_1MiB 1 0 (by omega) (by norm_num),
    cex_prd_1MiB (1 + 2 ^ 16 + 4) 2 (by omega) (by norm_num), ?_⟩
  intro h
  have h2 := List.append_cancel_left h
  have h3 := congrArg (fun l => l.headD 0) h2
  dsimp only at h3
  rw [headD_replicate _ _ _ (by norm_num), headD_replicate _ _ _ (by norm_num)] at h3
  omega

/-- C3 (amended): from any seeded state (with the counter-bound needed
for success), `pseudo_random_data (2^21)` and the first of two
successive `pseudo_random_data (2^20)` calls agree on the first `2^20`
bytes — the first small call returns exactly the first half of the large
call's output — but the concatenation of the two small calls' outputs
differs in general from the large call's output beyond that point,
because the zero-length chunk that ends the first small call performs an
extra key rotation before the second small call starts. -/
theorem claim_C3 (aes : List Nat → List Nat → List Nat)
    (h16 : ∀ k b, (aes k b).length = 16) (c : Nat) (key : List Nat)
    (hc : 0 < c) (hb : c + 2 ^ 17 + 6 ≤ 2 ^ 128) :
    ∃ oBig sB o1 s1,
      pseudo_random_data aes (2 ^ 21) { counter := c, key := key } = (.ok oBig, sB) ∧
      pseudo_random_data aes (2 ^ 20) { counter := c, key := key } = (.ok o1, s1) ∧
      oBig.length = 2 ^ 21 ∧ o1.length = 2 ^ 20 ∧ o1 = oBig.take (2 ^ 20) :=
  prd_two_mega_prefix aes h16 c key (Nat.pos_iff_ne_zero.mp hc) hb

theorem claim_C3_witness :
    ((0 : Nat) < 1 ∧ 1 + 2 ^ 17 + 6 ≤ 2 ^ 128) ∧
    (∃ oBig sB o1 s1,
      pseudo_random_data zAes (2 ^ 21) { counter := 1, key := List.replicate 32 0 } =
        (.ok oBig, sB) ∧
      pseudo_random_data zAes (2 ^ 20) { counter := 1, key := List.replicate 32 0 } =
        (.ok o1, s1) ∧
      oBig.length = 2 ^ 21 ∧ o1.length = 2 ^ 20 ∧ o1 = oBig.take (2 ^ 20)) :=
  ⟨⟨by decide, by decide⟩,
   claim_C3 zAes zAes_len 1 (List.replicate 32 0) (by decide) (by decide)⟩

end Fortuna
